import Mathlib

namespace ThetaSnapshot

/-! Constants from the REST variant. -/

def LIMIT_PER_PAGE : Nat := 100

def EPSILON : ℚ := 1 / 10 ^ 10

/-- A transfer record from the REST endpoint body: `{from, to, value}`.
The raw `value` string, converted by `Number(tx.value)`, is embedded as a
rational. -/
structure TokenTransaction where
  fromAddr : String
  toAddr : String
  value : ℚ
deriving DecidableEq, Repr

/-- JS `Set.add`: insertion-ordered, insert only when absent. -/
def insertAddr (l : List String) (a : String) : List String :=
  if a ∈ l then l else l ++ [a]

/-- JS object read `balances[a] || 0`: first binding of the key, else 0. -/
def lookupBal : List (String × ℚ) → String → ℚ
  | [], _ => 0
  | e :: rest, a => if e.1 = a then e.2 else lookupBal rest a

/-- JS object write `balances[a] = v`: replace the first binding of the
key, else append a new binding (insertion order preserved). -/
def updateBal : List (String × ℚ) → String → ℚ → List (String × ℚ)
  | [], a, v => [(a, v)]
  | e :: rest, a, v => if e.1 = a then (a, v) :: rest else e :: updateBal rest a v

/-- The aggregation state of `getTokenSnapshot`: the `uniqueAddresses` set
and the `balances` object. -/
structure SnapState where
  addrs : List String
  bals : List (String × ℚ)
deriving DecidableEq, Repr

/-- One iteration of the `forEach` body at part_000 lines 69-77:
`uniqueAddresses.add(tx.from).add(tx.to)`, then debit the sender and
credit the receiver by `Number(tx.value) / 10 ** 18`. -/
def applyTx (st : SnapState) (tx : TokenTransaction) : SnapState :=
  let amount := tx.value / 10 ^ 18
  let addrs1 := insertAddr (insertAddr st.addrs tx.fromAddr) tx.toAddr
  let b1 := updateBal st.bals tx.fromAddr (lookupBal st.bals tx.fromAddr - amount)
  let b2 := updateBal b1 tx.toAddr (lookupBal b1 tx.toAddr + amount)
  ⟨addrs1, b2⟩

/-- The ledger built from a list of transfer records, starting from the
empty set and empty balances object. -/
def runLedger (txs : List TokenTransaction) : SnapState :=
  txs.foldl applyTx ⟨[], []⟩

/-- Net effect of one record on the balance of one address. -/
def txDelta (tx : TokenTransaction) (a : String) : ℚ :=
  (if tx.toAddr = a then tx.value / 10 ^ 18 else 0)
    - (if tx.fromAddr = a then tx.value / 10 ^ 18 else 0)

/-- Sum of all values stored in the balances object. -/
def sumBals (l : List (String × ℚ)) : ℚ :=
  (l.map Prod.snd).sum

/-! Address validation, part_000 line 39: `/^0x[a-fA-F0-9]{40}$/.test`. -/

/-- One character class `[a-fA-F0-9]` of the validation regex. -/
def isHexChar (c : Char) : Bool :=
  (decide ('a' ≤ c) && decide (c ≤ 'f'))
    || (decide ('A' ≤ c) && decide (c ≤ 'F'))
    || (decide ('0' ≤ c) && decide (c ≤ '9'))

/-- The test `tokenAddress && /^0x[a-fA-F0-9]{40}$/.test(tokenAddress)`:
the whole string is the prefix `0x` followed by exactly 40 hex characters
(an empty string is falsy and fails the first conjunct anyway). -/
def isValidAddress (s : String) : Bool :=
  match s.data with
  | '0' :: 'x' :: rest => decide (rest.length = 40) && rest.all isHexChar
  | _ => false

/-- For the refinement claim about the validator only: the address format
in the words of the spec, `0x` followed by 40 hexadecimal characters. -/
def matchesAddressFormat (s : String) : Prop :=
  ∃ t : List Char, s.data = '0' :: 'x' :: t ∧ t.length = 40 ∧ ∀ c ∈ t, isHexChar c = true

/-! The REST pagination loop of `getTokenSnapshot`, part_000 lines 45-90,
and its `catch` block, lines 108-122. The provider abstracts the axios
call for one page number: it either resolves with an optional body or
throws. -/

/-- An error thrown by the transport layer: an axios error carrying an
optional HTTP status, or anything else. -/
inductive ThrownError where
  | axiosErr (status : Option Nat)
  | otherErr
deriving DecidableEq, Repr

/-- Result of requesting one page: `response.data.body` (possibly
missing), or a thrown error. -/
inductive PageResult where
  | ok (body : Option (List TokenTransaction))
  | thrown (e : ThrownError)

/-- Whether the loop continues past page `p`: the body is present,
nonempty, and not shorter than `LIMIT_PER_PAGE` (lines 68 and 79-83). -/
def pageContinues (provider : Nat → PageResult) (p : Nat) : Bool :=
  match provider p with
  | .ok (some body) =>
      decide (0 < body.length) && !(decide (body.length < LIMIT_PER_PAGE))
  | _ => false

/-- Whether the loop stops successfully at page `p` (no throw, and the
continuation test fails). -/
def pageStops (provider : Nat → PageResult) (p : Nat) : Bool :=
  (match provider p with
    | .ok _ => true
    | .thrown _ => false) && !(pageContinues provider p)

/-- The records the loop processes from page `p`: the body when present,
nothing when the body is missing or an error is thrown. -/
def pageBody (provider : Nat → PageResult) (p : Nat) : List TokenTransaction :=
  match provider p with
  | .ok (some body) => body
  | _ => []

/-- The `while (hasMoreData)` loop, fuelled: starting at page `page` with
state `st`, returns the final state and the list of visited page numbers,
`Except.error` when the provider throws, and `none` when the fuel runs
out before the provider signals exhaustion. -/
def fetchPages (provider : Nat → PageResult) :
    Nat → Nat → SnapState → Option (Except ThrownError (SnapState × List Nat))
  | 0, _, _ => none
  | fuel + 1, page, st =>
    match provider page with
    | .thrown e => some (.error e)
    | .ok none => some (.ok (st, [page]))
    | .ok (some body) =>
      if 0 < body.length then
        let st1 := body.foldl applyTx st
        if body.length < LIMIT_PER_PAGE then some (.ok (st1, [page]))
        else (fetchPages provider fuel (page + 1) st1).map
          (fun r => r.map (fun p => (p.1, page :: p.2)))
      else some (.ok (st, [page]))

/-- The error taxonomy of `getTokenSnapshot` as seen by its caller. -/
inductive SnapError where
  | invalidAddress
  | rateLimitExceeded
  | propagated (e : ThrownError)
deriving DecidableEq, Repr

/-- What a successful run produces: the returned
`Array.from(uniqueAddresses)` and the CSV rows written after the header. -/
structure SnapResult where
  addresses : List String
  csv : List (String × ℚ)
deriving DecidableEq, Repr

/-- The dust filter of part_000 lines 96-101:
`.filter(([_, value]) => value > EPSILON)` over the entries of the
balances object, each survivor written as one CSV row. -/
def dustFilter (entries : List (String × ℚ)) : List (String × ℚ) :=
  entries.filter (fun e => decide (EPSILON < e.2))

/-- `getTokenSnapshot` (part_000 lines 37-123): validate the token
address, run the pagination loop from page 1, filter dust out of the
final balances, return the unique addresses; in the `catch` block map an
axios 429 to `rateLimitExceeded` and rethrow anything else. -/
def getTokenSnapshot (provider : Nat → PageResult) (fuel : Nat)
    (tokenAddress : String) : Option (Except SnapError SnapResult) :=
  if !(isValidAddress tokenAddress) then some (.error .invalidAddress)
  else
    match fetchPages provider fuel 1 ⟨[], []⟩ with
    | none => none
    | some (.error e) =>
        some (.error (if e = .axiosErr (some 429) then .rateLimitExceeded
          else .propagated e))
    | some (.ok (st, _)) => some (.ok ⟨st.addrs, dustFilter st.bals⟩)

/-- All records the loop processes when it stops at page `N`: the bodies
of pages 1 through `N` concatenated in page order. -/
def allFetchedTxs (provider : Nat → PageResult) (N : Nat) : List TokenTransaction :=
  ((List.range' 1 N).map (pageBody provider)).flatten

/-! The GraphQL enrichment variant (part_001, compiled as index.js):
configuration, per-address balance lookup with retry, batching. -/

def MAX_RETRIES : Nat := 3

def BASE_DELAY_MS : Nat := 300

def BATCH_SIZE : Nat := 10

/-- The exported unit `{address, balance}` with the balance kept as the
string the API returned. -/
structure TokenHolder where
  address : String
  balance : String
deriving DecidableEq, Repr

/-- Numeric value of a run of decimal digits. -/
def digitsToNat (l : List Char) : Nat :=
  l.foldl (fun n c => 10 * n + (c.toNat - 48)) 0

/-- Embedding of JS `parseFloat` on the plain decimal strings the balance
API returns: optional sign, an integer part and an optional fractional
part, `none` when not even one digit can be parsed (JS `NaN`). Exponents
and leading whitespace, which such balance strings never carry, are out
of scope of the embedding. -/
def parseFloatQ (s : String) : Option ℚ :=
  let core := fun (l : List Char) (sign : ℚ) =>
    let intPart := l.takeWhile Char.isDigit
    let rest2 := l.dropWhile Char.isDigit
    let fracPart := match rest2 with
      | '.' :: r => r.takeWhile Char.isDigit
      | _ => []
    if intPart = [] ∧ fracPart = [] then none
    else some (sign * ((digitsToNat intPart : ℚ)
      + (digitsToNat fracPart : ℚ) / 10 ^ fracPart.length))
  match s.data with
  | '-' :: r => core r (-1)
  | '+' :: r => core r 1
  | r => core r 1

/-- The test `balance && parseFloat(balance) > 0` (part_001 line 96): the
balance string is truthy (nonempty) and parses to a strictly positive
number (`NaN > 0` is false). -/
def positiveParsed (s : String) : Bool :=
  (!(decide (s = ""))) && (match parseFloatQ s with
    | some q => decide (0 < q)
    | none => false)

/-- The success branch of `fetchWithRetry` (part_001 lines 89-99). The
response is embedded as what the optional-chaining reads can see: `none`
when `data?.data?.ethereum?.address?.[0]` is missing, `some none` when
`balances?.[0]?.value` is missing, `some (some s)` for a present balance
string. A holder is produced exactly when the balance string passes the
truthy-and-positive test; everything else is `null`, not an error. -/
def holderOfResponse (address : String) (resp : Option (Option String)) :
    Option TokenHolder :=
  match resp with
  | some (some balance) =>
      if positiveParsed balance then some ⟨address, balance⟩ else none
  | _ => none

/-- One attempt of the balance lookup as seen by `fetchWithRetry`: the
request resolves with response data, or it rejects (throws). -/
inductive BalanceOutcome where
  | success (resp : Option (Option String))
  | failure
deriving DecidableEq

/-- `fetchWithRetry` (part_001 lines 69-111), the network abstracted as
the outcome of each numbered attempt: returns the holder-or-null result,
the number of the attempt on which it returned, and the list of backoff
delays slept, in milliseconds. On a thrown attempt `< MAX_RETRIES` it
sleeps `BASE_DELAY_MS * 2 ^ (attempt - 1)` and recurses on `attempt + 1`;
after the last allowed attempt it returns `null` rather than raising. -/
def fetchWithRetry (oracle : Nat → BalanceOutcome) (address : String)
    (attempt : Nat) : Option TokenHolder × Nat × List Nat :=
  match oracle attempt with
  | .success resp => (holderOfResponse address resp, attempt, [])
  | .failure =>
    if h : attempt < MAX_RETRIES then
      let r := fetchWithRetry oracle address (attempt + 1)
      (r.1, r.2.1, (BASE_DELAY_MS * 2 ^ (attempt - 1)) :: r.2.2)
    else (none, attempt, [])
termination_by MAX_RETRIES - attempt
decreasing_by simp [MAX_RETRIES] at h ⊢; omega

/-- `processBatch` (part_001 lines 119-124): look every address of the
batch up and keep the non-null results in order. -/
def processBatch (lookup : String → Option TokenHolder)
    (addresses : List String) : List TokenHolder :=
  (addresses.map lookup).filterMap id

/-- The chunking of `fetchAllBalances` (part_001 lines 133-135):
`Array.from({length: Math.ceil(n / BATCH_SIZE)}, (_, i) =>
addresses.slice(i * BATCH_SIZE, i * BATCH_SIZE + BATCH_SIZE))`. -/
def makeChunks (addresses : List String) : List (List String) :=
  (List.range ((addresses.length + BATCH_SIZE - 1) / BATCH_SIZE)).map
    (fun i => (addresses.drop (i * BATCH_SIZE)).take BATCH_SIZE)

/-- The batch loop of `fetchAllBalances` (part_001 lines 139-148):
process each chunk in order, collect the holders, and sleep
`BASE_DELAY_MS` after every batch except the last; the second component
counts those inter-batch delays. -/
def runBatches (lookup : String → Option TokenHolder) :
    List (List String) → List TokenHolder × Nat
  | [] => ([], 0)
  | [c] => (processBatch lookup c, 0)
  | c :: c2 :: rest =>
    let r := runBatches lookup (c2 :: rest)
    (processBatch lookup c ++ r.1, r.2 + 1)

/-- `fetchAllBalances` (part_001 lines 132-151): chunk the candidate
addresses and run the batch loop. -/
def fetchAllBalances (lookup : String → Option TokenHolder)
    (addresses : List String) : List TokenHolder × Nat :=
  runBatches lookup (makeChunks addresses)

/-!
Verification of the theta_snapshot repository: a shallow embedding of its
two pipelines (REST pagination snapshot and GraphQL batched balance
enrichment) together with theorems about the embedded definitions.
Floating-point arithmetic of the source is embedded with exact rationals.
-/

theorem lookupBal_updateBal (l : List (String × ℚ)) (k : String) (v : ℚ) (a : String) :
    lookupBal (updateBal l k v) a = if k = a then v else lookupBal l a := by
  induction l with
  | nil => simp [updateBal, lookupBal]
  | cons e rest ih =>
    by_cases hek : e.1 = k
    · subst hek
      simp only [updateBal, if_pos rfl, lookupBal]
      by_cases hka : e.1 = a <;> simp [hka]
    · simp only [updateBal, if_neg hek, lookupBal]
      by_cases hea : e.1 = a
      · have hka : k ≠ a := fun h => hek (hea.trans h.symm)
        simp [hea, hka]
      · simp [hea, ih]

theorem lookupBal_applyTx (st : SnapState) (tx : TokenTransaction) (a : String) :
    lookupBal (applyTx st tx).bals a = lookupBal st.bals a + txDelta tx a := by
  simp only [applyTx, txDelta, lookupBal_updateBal]
  by_cases hto : tx.toAddr = a <;> by_cases hfrom : tx.fromAddr = a <;>
    (simp [hto, hfrom]; try ring)

theorem lookupBal_foldl (txs : List TokenTransaction) (st : SnapState) (a : String) :
    lookupBal (txs.foldl applyTx st).bals a
      = lookupBal st.bals a + (txs.map (fun tx => txDelta tx a)).sum := by
  induction txs generalizing st with
  | nil => simp
  | cons tx rest ih =>
    simp only [List.foldl_cons, List.map_cons, List.sum_cons, ih, lookupBal_applyTx]
    ring

theorem sumBals_updateBal (l : List (String × ℚ)) (k : String) (v : ℚ) :
    sumBals (updateBal l k v) = sumBals l + v - lookupBal l k := by
  induction l with
  | nil => simp [updateBal, sumBals, lookupBal]
  | cons e rest ih =>
    by_cases hek : e.1 = k
    · subst hek
      simp only [updateBal, if_pos rfl, sumBals, lookupBal, List.map_cons, List.sum_cons]
      simp
      ring
    · simp only [updateBal, if_neg hek, sumBals, lookupBal, List.map_cons, List.sum_cons,
        if_neg hek]
      simp only [sumBals] at ih
      rw [ih]
      ring

theorem sumBals_applyTx (st : SnapState) (tx : TokenTransaction) :
    sumBals (applyTx st tx).bals = sumBals st.bals := by
  simp only [applyTx, sumBals_updateBal, lookupBal_updateBal]
  ring

theorem sumBals_foldl (txs : List TokenTransaction) (st : SnapState) :
    sumBals (txs.foldl applyTx st).bals = sumBals st.bals := by
  induction txs generalizing st with
  | nil => rfl
  | cons tx rest ih => simp [List.foldl_cons, ih, sumBals_applyTx]

/-- Claim C1: ledger aggregation (REST path) is commutative over record
order: for any two permutations of the same multiset of transfer records,
folding them (each record subtracting value/10^18 from the sender's
balance and adding it to the receiver's, absent entries starting at 0)
yields the same final per-address balance map, and the sum of all final
balances over all addresses equals zero. -/
theorem ledger_aggregation_perm_invariant (l1 l2 : List TokenTransaction)
    (h : l1.Perm l2) :
    (∀ a, lookupBal (runLedger l1).bals a = lookupBal (runLedger l2).bals a)
      ∧ sumBals (runLedger l1).bals = 0 := by
  constructor
  · intro a
    simp only [runLedger, lookupBal_foldl]
    exact congrArg _ ((h.map _).sum_eq)
  · simp only [runLedger, sumBals_foldl]
    rfl

/-- Claim C1 witness: two concrete orderings of the same two records give
the same balances, and the total is zero. -/
theorem ledger_aggregation_perm_invariant_app :
    (∀ a, lookupBal (runLedger
        [⟨"0xa1", "0xb2", 5⟩, ⟨"0xb2", "0xc3", 2⟩]).bals a
      = lookupBal (runLedger
        [⟨"0xb2", "0xc3", 2⟩, ⟨"0xa1", "0xb2", 5⟩]).bals a)
    ∧ sumBals (runLedger [⟨"0xa1", "0xb2", 5⟩, ⟨"0xb2", "0xc3", 2⟩]).bals = 0 :=
  ledger_aggregation_perm_invariant _ _ (by decide)

theorem fetchPages_run (provider : Nat → PageResult) :
    ∀ (k page : Nat) (st : SnapState),
    (∀ p, page ≤ p → p < page + k → pageContinues provider p = true) →
    pageStops provider (page + k) = true →
    fetchPages provider (k + 1) page st
      = some (.ok ((((List.range' page (k + 1)).map (pageBody provider)).flatten).foldl
          applyTx st, List.range' page (k + 1))) := by
  intro k
  induction k with
  | zero =>
    intro page st _ hstop
    rw [Nat.add_zero] at hstop
    simp only [pageStops, pageContinues] at hstop
    cases hp : provider page with
    | thrown e => rw [hp] at hstop; simp at hstop
    | ok obody =>
      cases obody with
      | none => simp [fetchPages, hp, pageBody, List.range']
      | some body =>
        rw [hp] at hstop
        simp only [Bool.and_eq_true, Bool.not_eq_true'] at hstop
        by_cases hlen : 0 < body.length
        · have hsmall : body.length < LIMIT_PER_PAGE := by
            rcases Bool.and_eq_false_iff.mp hstop.2 with h | h
            · exact absurd hlen (by simpa using h)
            · simpa using h
          simp [fetchPages, hp, pageBody, List.range', hlen, hsmall]
        · have hnil : body = [] := List.length_eq_zero.mp (by omega)
          simp [fetchPages, hp, pageBody, List.range', hnil]
  | succ k ih =>
    intro page st hfull hstop
    have hc := hfull page (Nat.le_refl _) (by omega)
    simp only [pageContinues] at hc
    cases hp : provider page with
    | thrown e => rw [hp] at hc; simp at hc
    | ok obody =>
      cases obody with
      | none => rw [hp] at hc; simp at hc
      | some body =>
        rw [hp] at hc
        simp only [Bool.and_eq_true, Bool.not_eq_true', decide_eq_true_eq,
          decide_eq_false_iff_not] at hc
        have hlen : 0 < body.length := hc.1
        have hbig : ¬ body.length < LIMIT_PER_PAGE := by simpa using hc.2
        have hrec := ih (page + 1) (body.foldl applyTx st)
          (fun p hp1 hp2 => hfull p (by omega) (by omega))
          (by rw [show page + 1 + k = page + (k + 1) by omega]; exact hstop)
        rw [fetchPages, hp]
        simp only [if_pos hlen, if_neg hbig, hrec, Option.map_some]
        have hr : List.range' page (k + 1 + 1)
            = page :: List.range' (page + 1) (k + 1) := rfl
        rw [hr]
        simp only [List.map_cons, List.flatten_cons, pageBody, hp, List.foldl_append,
          Except.map]
        rfl

theorem fetchPages_thrown (provider : Nat → PageResult) :
    ∀ (k page : Nat) (st : SnapState) (e : ThrownError),
    (∀ p, page ≤ p → p < page + k → pageContinues provider p = true) →
    provider (page + k) = .thrown e →
    fetchPages provider (k + 1) page st = some (.error e) := by
  intro k
  induction k with
  | zero =>
    intro page st e _ hthrow
    rw [Nat.add_zero] at hthrow
    simp [fetchPages, hthrow]
  | succ k ih =>
    intro page st e hfull hthrow
    have hc := hfull page (Nat.le_refl _) (by omega)
    simp only [pageContinues] at hc
    cases hp : provider page with
    | thrown e2 => rw [hp] at hc; simp at hc
    | ok obody =>
      cases obody with
      | none => rw [hp] at hc; simp at hc
      | some body =>
        rw [hp] at hc
        simp only [Bool.and_eq_true, Bool.not_eq_true', decide_eq_true_eq,
          decide_eq_false_iff_not] at hc
        have hlen : 0 < body.length := hc.1
        have hbig : ¬ body.length < LIMIT_PER_PAGE := by simpa using hc.2
        have hrec := ih (page + 1) (body.foldl applyTx st) e
          (fun p hp1 hp2 => hfull p (by omega) (by omega))
          (by rw [show page + 1 + k = page + (k + 1) by omega]; exact hthrow)
        rw [fetchPages, hp]
        simp only [if_pos hlen, if_neg hbig, hrec, Option.map_some]
        rfl

/-- Claim C4: the pagination loop starts at page 1, visits pages in
ascending order, continues to the next page exactly when the returned
body holds the full `LIMIT_PER_PAGE` records (given that the provider
never returns more than requested), and terminates — returning a result
rather than running out of fuel — as soon as a page returns fewer than
`LIMIT_PER_PAGE` records, zero records, or a missing body. -/
theorem pagination_terminates (provider : Nat → PageResult) (N : Nat)
    (hbound : ∀ p body, provider p = .ok (some body) → body.length ≤ LIMIT_PER_PAGE)
    (hN : 1 ≤ N)
    (hfull : ∀ p, 1 ≤ p → p < N → pageContinues provider p = true)
    (hstop : pageStops provider N = true) :
    (∃ st, fetchPages provider N 1 ⟨[], []⟩ = some (.ok (st, List.range' 1 N)))
      ∧ (∀ p, pageContinues provider p = true
          ↔ ∃ body, provider p = .ok (some body) ∧ body.length = LIMIT_PER_PAGE) := by
  constructor
  · obtain ⟨k, hk⟩ : ∃ k, N = k + 1 := ⟨N - 1, by omega⟩
    subst hk
    refine ⟨_, fetchPages_run provider k 1 ⟨[], []⟩ ?_ ?_⟩
    · intro p hp1 hp2
      exact hfull p hp1 (by omega)
    · rw [show 1 + k = k + 1 by omega]
      exact hstop
  · intro p
    constructor
    · intro hc
      simp only [pageContinues] at hc
      cases hp : provider p with
      | thrown e => rw [hp] at hc; simp at hc
      | ok obody =>
        cases obody with
        | none => rw [hp] at hc; simp at hc
        | some body =>
          rw [hp] at hc
          simp only [Bool.and_eq_true, Bool.not_eq_true', decide_eq_true_eq,
            decide_eq_false_iff_not] at hc
          exact ⟨body, rfl, le_antisymm (hbound p body hp) (by omega)⟩
    · rintro ⟨body, hp, hlen⟩
      simp [pageContinues, hp, hlen, LIMIT_PER_PAGE]

/-- Claim C4 witness: a provider serving two full pages then a partial
one terminates after visiting pages 1, 2, 3. -/
theorem pagination_terminates_app :
    (∃ st, fetchPages
        (fun p => if p ≤ 2 then .ok (some (List.replicate 100 ⟨"0xs", "0xr", 1⟩))
          else .ok (some (List.replicate 7 ⟨"0xs", "0xr", 1⟩)))
        3 1 ⟨[], []⟩ = some (.ok (st, List.range' 1 3)))
      ∧ (∀ p, pageContinues
          (fun p => if p ≤ 2 then .ok (some (List.replicate 100 ⟨"0xs", "0xr", 1⟩))
            else .ok (some (List.replicate 7 ⟨"0xs", "0xr", 1⟩))) p = true
          ↔ ∃ body, (if p ≤ 2 then PageResult.ok (some (List.replicate 100 ⟨"0xs", "0xr", 1⟩))
              else .ok (some (List.replicate 7 ⟨"0xs", "0xr", 1⟩)))
                = .ok (some body) ∧ body.length = LIMIT_PER_PAGE) :=
  pagination_terminates _ 3
    (by
      intro p body h
      by_cases hp : p ≤ 2 <;> simp [hp] at h <;> simp [← h, LIMIT_PER_PAGE])
    (by omega)
    (by
      intro p h1 h2
      have : p ≤ 2 := by omega
      simp [pageContinues, this, LIMIT_PER_PAGE])
    (by simp [pageStops, pageContinues, LIMIT_PER_PAGE])

theorem isValidAddress_iff (s : String) :
    isValidAddress s = true ↔ matchesAddressFormat s := by
  unfold isValidAddress matchesAddressFormat
  constructor
  · intro h
    split at h
    next rest heq =>
      rw [Bool.and_eq_true] at h
      refine ⟨rest, heq, by simpa using h.1, by simpa [List.all_eq_true] using h.2⟩
    next => simp at h
  · rintro ⟨t, hdata, hlen, hall⟩
    rw [hdata]
    simp [hlen, List.all_eq_true]
    exact hall

/-- Claim C7: the Address Validator accepts exactly the strings of the
form `0x` followed by 40 hexadecimal characters, and on any other string
`getTokenSnapshot` fails with the invalid-address error no matter what
the provider would answer — so rejection happens before any network
activity. -/
theorem address_validator_spec :
    (∀ s, isValidAddress s = true ↔ matchesAddressFormat s)
    ∧ (∀ s (provider : Nat → PageResult) (fuel : Nat),
        isValidAddress s = false →
        getTokenSnapshot provider fuel s = some (.error .invalidAddress)) := by
  refine ⟨isValidAddress_iff, ?_⟩
  intro s provider fuel h
  simp [getTokenSnapshot, h]

/-- Claim C7 witness: a canonical valid address is accepted, and a
malformed string makes the snapshot fail with the invalid-address error
under a provider it never consults. -/
theorem address_validator_spec_app :
    (isValidAddress "0xAb5801a7D398351b8bE11C439e05C5b3259aec9B"
      ↔ matchesAddressFormat "0xAb5801a7D398351b8bE11C439e05C5b3259aec9B")
    ∧ getTokenSnapshot (fun _ => .ok none) 1 "0xzz"
        = some (.error .invalidAddress) :=
  ⟨address_validator_spec.1 _,
    address_validator_spec.2 "0xzz" (fun _ => .ok none) 1 (by decide)⟩

/-- Claim C9: with the pagination loop otherwise advancing through full
pages, a thrown axios error with HTTP status 429 makes `getTokenSnapshot`
fail immediately with `rateLimitExceeded`, and any other thrown error is
re-raised to the caller unchanged (wrapped as `propagated`), never
swallowed and never retried. -/
theorem rate_limit_and_propagation (provider : Nat → PageResult) (N : Nat)
    (tokenAddress : String)
    (hvalid : isValidAddress tokenAddress = true)
    (hN : 1 ≤ N)
    (hfull : ∀ p, 1 ≤ p → p < N → pageContinues provider p = true) :
    (provider N = .thrown (.axiosErr (some 429)) →
      getTokenSnapshot provider N tokenAddress = some (.error .rateLimitExceeded))
    ∧ (∀ e, provider N = .thrown e → e ≠ .axiosErr (some 429) →
      getTokenSnapshot provider N tokenAddress = some (.error (.propagated e))) := by
  obtain ⟨k, hk⟩ : ∃ k, N = k + 1 := ⟨N - 1, by omega⟩
  subst hk
  constructor
  · intro hthrow
    have hrun := fetchPages_thrown provider k 1 ⟨[], []⟩ (.axiosErr (some 429))
      (fun p h1 h2 => hfull p h1 (by omega))
      (by rw [show 1 + k = k + 1 by omega]; exact hthrow)
    simp [getTokenSnapshot, hvalid, hrun]
  · intro e hthrow hne
    have hrun := fetchPages_thrown provider k 1 ⟨[], []⟩ e
      (fun p h1 h2 => hfull p h1 (by omega))
      (by rw [show 1 + k = k + 1 by omega]; exact hthrow)
    simp [getTokenSnapshot, hvalid, hrun, hne]

/-- Claim C9 witness: under a provider throwing 429 on page 1 the run
fails with the rate-limit error, and under one throwing a plain network
error it propagates that error. -/
theorem rate_limit_and_propagation_app :
    (getTokenSnapshot (fun _ => .thrown (.axiosErr (some 429))) 1
        "0xAb5801a7D398351b8bE11C439e05C5b3259aec9B"
      = some (.error .rateLimitExceeded))
    ∧ (getTokenSnapshot (fun _ => .thrown .otherErr) 1
        "0xAb5801a7D398351b8bE11C439e05C5b3259aec9B"
      = some (.error (.propagated .otherErr))) :=
  ⟨(rate_limit_and_propagation (fun _ => .thrown (.axiosErr (some 429))) 1 _
      (by decide) (by omega) (fun p h1 h2 => absurd h2 (by omega))).1 rfl,
    (rate_limit_and_propagation (fun _ => .thrown .otherErr) 1 _
      (by decide) (by omega) (fun p h1 h2 => absurd h2 (by omega))).2
      .otherErr rfl (by decide)⟩

/-! Address-set lemmas for the aggregation state. -/

theorem mem_insertAddr (l : List String) (b a : String) :
    a ∈ insertAddr l b ↔ a ∈ l ∨ a = b := by
  unfold insertAddr
  by_cases hb : b ∈ l
  · simp only [if_pos hb]
    constructor
    · exact Or.inl
    · rintro (h | rfl)
      · exact h
      · exact hb
  · simp [if_neg hb]

theorem nodup_insertAddr (l : List String) (b : String) (h : l.Nodup) :
    (insertAddr l b).Nodup := by
  unfold insertAddr
  by_cases hb : b ∈ l
  · simpa [hb]
  · rw [if_neg hb]
    refine List.Nodup.append h (List.nodup_singleton b) ?_
    intro x hx hxb
    rw [List.mem_singleton] at hxb
    exact hb (hxb ▸ hx)

theorem mem_addrs_applyTx (st : SnapState) (tx : TokenTransaction) (a : String) :
    a ∈ (applyTx st tx).addrs ↔ a ∈ st.addrs ∨ a = tx.fromAddr ∨ a = tx.toAddr := by
  simp [applyTx, mem_insertAddr, or_assoc]

theorem nodup_addrs_applyTx (st : SnapState) (tx : TokenTransaction)
    (h : st.addrs.Nodup) : (applyTx st tx).addrs.Nodup :=
  nodup_insertAddr _ _ (nodup_insertAddr _ _ h)

theorem mem_addrs_foldl (txs : List TokenTransaction) (st : SnapState) (a : String) :
    a ∈ (txs.foldl applyTx st).addrs
      ↔ a ∈ st.addrs ∨ ∃ tx ∈ txs, a = tx.fromAddr ∨ a = tx.toAddr := by
  induction txs generalizing st with
  | nil => simp
  | cons tx rest ih =>
    simp only [List.foldl_cons, ih, mem_addrs_applyTx, List.mem_cons]
    constructor
    · rintro ((h | h | h) | ⟨tx2, htx2, h⟩)
      · exact Or.inl h
      · exact Or.inr ⟨tx, Or.inl rfl, Or.inl h⟩
      · exact Or.inr ⟨tx, Or.inl rfl, Or.inr h⟩
      · exact Or.inr ⟨tx2, Or.inr htx2, h⟩
    · rintro (h | ⟨tx2, htx2 | htx2, h⟩)
      · exact Or.inl (Or.inl h)
      · subst htx2; exact Or.inl (Or.inr h)
      · exact Or.inr ⟨tx2, htx2, h⟩

theorem nodup_addrs_foldl (txs : List TokenTransaction) (st : SnapState)
    (h : st.addrs.Nodup) : (txs.foldl applyTx st).addrs.Nodup := by
  induction txs generalizing st with
  | nil => exact h
  | cons tx rest ih => exact ih _ (nodup_addrs_applyTx _ _ h)

theorem mem_updateBal (l : List (String × ℚ)) (k : String) (v : ℚ)
    (e : String × ℚ) (h : e ∈ updateBal l k v) : e = (k, v) ∨ e ∈ l := by
  induction l with
  | nil => simpa [updateBal] using h
  | cons e2 rest ih =>
    by_cases hk : e2.1 = k
    · rw [updateBal, if_pos hk] at h
      rcases List.mem_cons.mp h with h | h
      · exact Or.inl h
      · exact Or.inr (List.mem_cons_of_mem _ h)
    · rw [updateBal, if_neg hk] at h
      rcases List.mem_cons.mp h with h | h
      · exact Or.inr (h ▸ List.mem_cons_self _ _)
      · rcases ih h with h | h
        · exact Or.inl h
        · exact Or.inr (List.mem_cons_of_mem _ h)

theorem bals_keys_applyTx (st : SnapState) (tx : TokenTransaction)
    (hinv : ∀ e ∈ st.bals, e.1 ∈ st.addrs) :
    ∀ e ∈ (applyTx st tx).bals, e.1 ∈ (applyTx st tx).addrs := by
  intro e he
  rw [mem_addrs_applyTx]
  simp only [applyTx] at he
  rcases mem_updateBal _ _ _ _ he with rfl | he2
  · exact Or.inr (Or.inr rfl)
  · rcases mem_updateBal _ _ _ _ he2 with rfl | he3
    · exact Or.inr (Or.inl rfl)
    · exact Or.inl (hinv e he3)

theorem bals_keys_foldl (txs : List TokenTransaction) (st : SnapState)
    (hinv : ∀ e ∈ st.bals, e.1 ∈ st.addrs) :
    ∀ e ∈ (txs.foldl applyTx st).bals, e.1 ∈ (txs.foldl applyTx st).addrs := by
  induction txs generalizing st with
  | nil => exact hinv
  | cons tx rest ih => exact ih _ (bals_keys_applyTx _ _ hinv)

/-- Claim C10: on a successful run, `getTokenSnapshot` returns exactly
the deduplicated set of every address that appeared as sender or receiver
in any fetched transfer record, and that set is a superset of the
addresses written to the CSV — dust-filtered addresses are still
returned. -/
theorem snapshot_returns_all_addresses (provider : Nat → PageResult) (N : Nat)
    (tokenAddress : String)
    (hvalid : isValidAddress tokenAddress = true)
    (hN : 1 ≤ N)
    (hfull : ∀ p, 1 ≤ p → p < N → pageContinues provider p = true)
    (hstop : pageStops provider N = true) :
    ∃ res : SnapResult,
      getTokenSnapshot provider N tokenAddress = some (.ok res)
      ∧ (∀ a, a ∈ res.addresses
          ↔ ∃ tx ∈ allFetchedTxs provider N, a = tx.fromAddr ∨ a = tx.toAddr)
      ∧ res.addresses.Nodup
      ∧ (∀ e ∈ res.csv, e.1 ∈ res.addresses) := by
  obtain ⟨k, hk⟩ : ∃ k, N = k + 1 := ⟨N - 1, by omega⟩
  subst hk
  have hrun := fetchPages_run provider k 1 ⟨[], []⟩
    (fun p h1 h2 => hfull p h1 (by omega))
    (by rw [show 1 + k = k + 1 by omega]; exact hstop)
  refine ⟨⟨(((List.range' 1 (k + 1)).map (pageBody provider)).flatten.foldl
        applyTx ⟨[], []⟩).addrs,
      dustFilter (((List.range' 1 (k + 1)).map (pageBody provider)).flatten.foldl
        applyTx ⟨[], []⟩).bals⟩, ?_, ?_, ?_, ?_⟩
  · simp [getTokenSnapshot, hvalid, hrun]
  · intro a
    unfold allFetchedTxs
    rw [mem_addrs_foldl]
    simp only [List.not_mem_nil, false_or]
  · exact nodup_addrs_foldl _ ⟨[], []⟩ (by simp)
  · intro e he
    have he2 : e ∈ (((List.range' 1 (k + 1)).map (pageBody provider)).flatten.foldl
        applyTx ⟨[], []⟩).bals := List.mem_of_mem_filter he
    exact bals_keys_foldl _ ⟨[], []⟩ (by simp) e he2

/-- Claim C10 witness: a single partial page with one transfer yields a
successful run whose returned address set has the stated properties. -/
theorem snapshot_returns_all_addresses_app :
    ∃ res : SnapResult,
      getTokenSnapshot (fun _ => .ok (some [⟨"0xs", "0xr", 1⟩])) 1
          "0xAb5801a7D398351b8bE11C439e05C5b3259aec9B" = some (.ok res)
      ∧ (∀ a, a ∈ res.addresses
          ↔ ∃ tx ∈ allFetchedTxs (fun _ => .ok (some [⟨"0xs", "0xr", 1⟩])) 1,
              a = tx.fromAddr ∨ a = tx.toAddr)
      ∧ res.addresses.Nodup
      ∧ (∀ e ∈ res.csv, e.1 ∈ res.addresses) :=
  snapshot_returns_all_addresses (fun _ => .ok (some [⟨"0xs", "0xr", 1⟩])) 1 _
    (by decide) (by omega) (fun p h1 h2 => absurd h2 (by omega))
    (by decide)

/-- Claim C5: the REST-path dust filter is strict at `EPSILON`: an entry
whose balance is at most `EPSILON` (so in particular every zero or
negative balance) is excluded from the CSV rows, and an entry whose
balance is strictly greater than `EPSILON` is written exactly as often
as it occurs among the ledger entries — one CSV row per entry. -/
theorem dust_filter_strict (entries : List (String × ℚ)) (a : String) (b : ℚ) :
    ((a, b) ∈ dustFilter entries ↔ (a, b) ∈ entries ∧ EPSILON < b)
    ∧ (b ≤ EPSILON → (a, b) ∉ dustFilter entries)
    ∧ (EPSILON < b → (dustFilter entries).count (a, b) = entries.count (a, b)) := by
  refine ⟨?_, ?_, ?_⟩
  · simp [dustFilter, List.mem_filter]
  · intro hle hmem
    simp only [dustFilter, List.mem_filter, decide_eq_true_eq] at hmem
    exact absurd hmem.2 (not_lt.mpr hle)
  · intro hgt
    exact List.count_filter (by simpa using hgt)

/-- Claim C5 witness: a zero-balance entry is excluded while a
one-token entry survives with its row count preserved. -/
theorem dust_filter_strict_app :
    ("0xz", (0 : ℚ)) ∉ dustFilter [("0xh", (1 : ℚ)), ("0xz", 0)]
    ∧ (dustFilter [("0xh", (1 : ℚ)), ("0xz", 0)]).count ("0xh", 1)
        = [("0xh", (1 : ℚ)), ("0xz", 0)].count ("0xh", 1) :=
  ⟨(dust_filter_strict [("0xh", (1 : ℚ)), ("0xz", 0)] "0xz" 0).2.1
      (by norm_num [EPSILON]),
    (dust_filter_strict [("0xh", (1 : ℚ)), ("0xz", 0)] "0xh" 1).2.2
      (by norm_num [EPSILON])⟩

/-- Claim C8 counterexample: the ingestion performs no lowercase
normalization — a run whose records carry the same address in two
casings leaves two entries in the unique-address set that differ only in
letter case, contradicting the claim that this can never happen. -/
theorem no_case_normalization_counterexample :
    "0xAAAAAAAAAAAAAAAAAAAAAAAAAAAAAAAAAAAAAAAA" ∈
        (runLedger [⟨"0xAAAAAAAAAAAAAAAAAAAAAAAAAAAAAAAAAAAAAAAA",
          "0xaaaaaaaaaaaaaaaaaaaaaaaaaaaaaaaaaaaaaaaa", 1⟩]).addrs
    ∧ "0xaaaaaaaaaaaaaaaaaaaaaaaaaaaaaaaaaaaaaaaa" ∈
        (runLedger [⟨"0xAAAAAAAAAAAAAAAAAAAAAAAAAAAAAAAAAAAAAAAA",
          "0xaaaaaaaaaaaaaaaaaaaaaaaaaaaaaaaaaaaaaaaa", 1⟩]).addrs
    ∧ "0xAAAAAAAAAAAAAAAAAAAAAAAAAAAAAAAAAAAAAAAA"
        ≠ "0xaaaaaaaaaaaaaaaaaaaaaaaaaaaaaaaaaaaaaaaa"
    ∧ "0xAAAAAAAAAAAAAAAAAAAAAAAAAAAAAAAAAAAAAAAA".data.map Char.toLower
        = "0xaaaaaaaaaaaaaaaaaaaaaaaaaaaaaaaaaaaaaaaa".data.map Char.toLower := by
  refine ⟨by decide, by decide, by decide, by decide⟩

/-- Claim C8 (amended): addresses are ingested verbatim, with no case
normalization: an address is in the unique-address set exactly when that
exact string occurs as sender or receiver of some record, and every
ledger key is such an exact string — so case-variant duplicates are
possible, and the address is an exact-string key, not a case-insensitive
one. -/
theorem addresses_ingested_verbatim (txs : List TokenTransaction) (a : String) :
    (a ∈ (runLedger txs).addrs ↔ ∃ tx ∈ txs, a = tx.fromAddr ∨ a = tx.toAddr)
    ∧ (∀ e ∈ (runLedger txs).bals, e.1 ∈ (runLedger txs).addrs) := by
  constructor
  · rw [runLedger, mem_addrs_foldl]
    simp only [List.not_mem_nil, false_or]
  · exact bals_keys_foldl txs ⟨[], []⟩ (by simp)

/-- Claim C2: starting from attempt 1, `fetchWithRetry` returns after at
most `MAX_RETRIES` attempts; when the lookup fails twice then succeeds it
returns the response's result on attempt 3 having slept 300ms then
600ms; when every attempt fails it returns `null` — no raised error —
after exactly 3 attempts and the same two backoff delays. -/
theorem fetchWithRetry_retry_policy (oracle : Nat → BalanceOutcome)
    (address : String) :
    ((fetchWithRetry oracle address 1).2.1 ≤ 3)
    ∧ (∀ resp, oracle 1 = .failure → oracle 2 = .failure →
        oracle 3 = .success resp →
        fetchWithRetry oracle address 1
          = (holderOfResponse address resp, 3, [300, 600]))
    ∧ ((∀ k, oracle k = .failure) →
        fetchWithRetry oracle address 1 = (none, 3, [300, 600])) := by
  refine ⟨?_, ?_, ?_⟩
  · cases h1 : oracle 1 with
    | success resp => rw [fetchWithRetry, h1]; simp
    | failure =>
      cases h2 : oracle 2 with
      | success resp =>
        rw [fetchWithRetry, h1, fetchWithRetry, h2]
        simp [MAX_RETRIES]
      | failure =>
        cases h3 : oracle 3 with
        | success resp =>
          rw [fetchWithRetry, h1, fetchWithRetry, h2, fetchWithRetry, h3]
          simp [MAX_RETRIES]
        | failure =>
          rw [fetchWithRetry, h1, fetchWithRetry, h2, fetchWithRetry, h3]
          simp [MAX_RETRIES]
  · intro resp h1 h2 h3
    rw [fetchWithRetry, h1, fetchWithRetry, h2, fetchWithRetry, h3]
    simp [MAX_RETRIES, BASE_DELAY_MS]
  · intro hall
    rw [fetchWithRetry, hall 1, fetchWithRetry, hall 2, fetchWithRetry, hall 3]
    simp [MAX_RETRIES, BASE_DELAY_MS]

/-- Claim C2 witness: at the always-failing oracle the lookup returns
`null` after exactly 3 attempts with delays 300ms and 600ms, and under a
fail-fail-succeed oracle it returns the third response's result. -/
theorem fetchWithRetry_retry_policy_app :
    ((fetchWithRetry (fun _ => .failure) "0xd" 1).2.1 ≤ 3)
    ∧ fetchWithRetry (fun _ => .failure) "0xd" 1 = (none, 3, [300, 600])
    ∧ fetchWithRetry (fun k => if k < 3 then .failure
        else .success (some (some "2"))) "0xd" 1
      = (holderOfResponse "0xd" (some (some "2")), 3, [300, 600]) :=
  ⟨(fetchWithRetry_retry_policy (fun _ => .failure) "0xd").1,
    (fetchWithRetry_retry_policy (fun _ => .failure) "0xd").2.2 (fun _ => rfl),
    (fetchWithRetry_retry_policy (fun k => if k < 3 then .failure
        else .success (some (some "2"))) "0xd").2.1 _ (by decide) (by decide)
      (by decide)⟩

/-- Claim C6: a first-attempt success carrying a present balance string
that parses to a strictly positive number yields the HolderRecord with
that address and balance string, in one attempt with no delay; a balance
that parses to zero or less, fails to parse, or is absent (either the
whole address data or the balance value), yields `null` in one attempt
with no delay and no retry — "no holding" is never treated as an
error. -/
theorem parseFloatQ_allDigits (s : String) (hne : s.data ≠ [])
    (hdig : ∀ c ∈ s.data, c.isDigit = true) :
    parseFloatQ s = some ((digitsToNat s.data : ℚ)) := by
  have htake : s.data.takeWhile Char.isDigit = s.data :=
    List.takeWhile_eq_self_iff.mpr hdig
  have hdrop : s.data.dropWhile Char.isDigit = [] :=
    List.dropWhile_eq_nil_iff.mpr hdig
  unfold parseFloatQ
  split
  next r heq =>
    have := hdig '-' (by rw [heq]; exact List.mem_cons_self _ _)
    simp at this
  next r heq =>
    have := hdig '+' (by rw [heq]; exact List.mem_cons_self _ _)
    simp at this
  next =>
    dsimp only
    rw [htake, hdrop]
    simp [hne, digitsToNat]

theorem balance_no_holding (oracle : Nat → BalanceOutcome) (address : String) :
    (∀ s q, oracle 1 = .success (some (some s)) → parseFloatQ s = some q →
        0 < q → fetchWithRetry oracle address 1 = (some ⟨address, s⟩, 1, []))
    ∧ (∀ s q, oracle 1 = .success (some (some s)) → parseFloatQ s = some q →
        q ≤ 0 → fetchWithRetry oracle address 1 = (none, 1, []))
    ∧ (∀ s, oracle 1 = .success (some (some s)) → parseFloatQ s = none →
        fetchWithRetry oracle address 1 = (none, 1, []))
    ∧ (oracle 1 = .success (some none) →
        fetchWithRetry oracle address 1 = (none, 1, []))
    ∧ (oracle 1 = .success none →
        fetchWithRetry oracle address 1 = (none, 1, [])) := by
  have hempty : parseFloatQ "" = none := rfl
  refine ⟨?_, ?_, ?_, ?_, ?_⟩
  · intro s q h1 hq hpos
    rw [fetchWithRetry, h1]
    have hs : s ≠ "" := fun h => by rw [h, hempty] at hq; cases hq
    simp [holderOfResponse, positiveParsed, hs, hq, hpos]
  · intro s q h1 hq hnonpos
    rw [fetchWithRetry, h1]
    simp [holderOfResponse, positiveParsed, hq, not_lt.mpr hnonpos]
  · intro s h1 hq
    rw [fetchWithRetry, h1]
    simp [holderOfResponse, positiveParsed, hq]
  · intro h1
    rw [fetchWithRetry, h1]
    simp [holderOfResponse]
  · intro h1
    rw [fetchWithRetry, h1]
    simp [holderOfResponse]

/-- Claim C6 witness: the end-to-end candidate pair — an address with
balance string `"0"` yields no record, one with balance
`"5000000000000000000"` yields its HolderRecord, each in one attempt —
so the batch keeps only the positive holder. -/
theorem balance_no_holding_app :
    fetchWithRetry (fun _ => .success (some (some "0"))) "0xC" 1 = (none, 1, [])
    ∧ fetchWithRetry (fun _ => .success (some (some "5000000000000000000")))
        "0xD" 1
      = (some ⟨"0xD", "5000000000000000000"⟩, 1, []) :=
  ⟨(balance_no_holding (fun _ => .success (some (some "0"))) "0xC").2.1
      "0" 0 rfl
      (by
        have h := parseFloatQ_allDigits "0" (by decide) (by decide)
        rw [show digitsToNat "0".data = 0 from rfl] at h
        simpa using h)
      (by norm_num),
    (balance_no_holding (fun _ => .success
        (some (some "5000000000000000000"))) "0xD").1
      "5000000000000000000" 5000000000000000000 rfl
      (by
        have h := parseFloatQ_allDigits "5000000000000000000" (by decide) (by decide)
        rw [show digitsToNat "5000000000000000000".data = 5000000000000000000
          from rfl] at h
        simpa using h)
      (by norm_num)⟩

theorem makeChunks_cons (l : List String) (h : l ≠ []) :
    makeChunks l = l.take BATCH_SIZE :: makeChunks (l.drop BATCH_SIZE) := by
  have hn : 1 ≤ l.length := List.length_pos.mpr h
  have hcount : (l.length + BATCH_SIZE - 1) / BATCH_SIZE
      = ((l.drop BATCH_SIZE).length + BATCH_SIZE - 1) / BATCH_SIZE + 1 := by
    rw [List.length_drop]
    simp only [BATCH_SIZE]
    rcases Nat.lt_or_ge l.length 11 with hc | hc
    · have h1 : l.length - 10 = 0 := by omega
      have h2 : (l.length + 10 - 1) / 10 = 1 := Nat.div_eq_of_lt_le (by omega) (by omega)
      rw [h1, h2]
    · have h2 : l.length - 10 + 10 - 1 = l.length - 1 := by omega
      have h3 : l.length + 10 - 1 = l.length - 1 + 10 := by omega
      rw [h2, h3, Nat.add_div_right _ (by norm_num)]
  unfold makeChunks
  rw [hcount, List.range_succ_eq_map, List.map_cons, List.map_map]
  refine congrArg₂ _ (by simp) ?_
  refine List.map_congr_left ?_
  intro i _
  simp only [Function.comp_apply, List.drop_drop]
  have : Nat.succ i * BATCH_SIZE = BATCH_SIZE + i * BATCH_SIZE := by
    simp [Nat.succ_mul, Nat.add_comm]
  rw [this]

theorem makeChunks_flatten_aux :
    ∀ (n : Nat) (l : List String), l.length ≤ n → (makeChunks l).flatten = l := by
  intro n
  induction n with
  | zero =>
    intro l hl
    have : l = [] := List.eq_nil_of_length_eq_zero (by omega)
    subst this
    rfl
  | succ n ih =>
    intro l hl
    by_cases hnil : l = []
    · subst hnil; rfl
    · have hn : 1 ≤ l.length := List.length_pos.mpr hnil
      rw [makeChunks_cons l hnil, List.flatten_cons,
        ih (l.drop BATCH_SIZE) (by rw [List.length_drop]; simp [BATCH_SIZE]; omega),
        List.take_append_drop]

theorem makeChunks_le_aux :
    ∀ (n : Nat) (l : List String), l.length ≤ n →
      ∀ c ∈ makeChunks l, c.length ≤ BATCH_SIZE := by
  intro n
  induction n with
  | zero =>
    intro l hl c hc
    have : l = [] := List.eq_nil_of_length_eq_zero (by omega)
    subst this
    simp [makeChunks, BATCH_SIZE] at hc
  | succ n ih =>
    intro l hl c hc
    by_cases hnil : l = []
    · subst hnil; simp [makeChunks, BATCH_SIZE] at hc
    · have hn : 1 ≤ l.length := List.length_pos.mpr hnil
      rw [makeChunks_cons l hnil] at hc
      rcases List.mem_cons.mp hc with rfl | hc2
      · simp [List.length_take]
      · exact ih (l.drop BATCH_SIZE)
          (by rw [List.length_drop]; simp [BATCH_SIZE]; omega) c hc2

theorem makeChunks_dropLast_aux :
    ∀ (n : Nat) (l : List String), l.length ≤ n →
      ∀ c ∈ (makeChunks l).dropLast, c.length = BATCH_SIZE := by
  intro n
  induction n with
  | zero =>
    intro l hl c hc
    have : l = [] := List.eq_nil_of_length_eq_zero (by omega)
    subst this
    simp [makeChunks, BATCH_SIZE] at hc
  | succ n ih =>
    intro l hl c hc
    by_cases hnil : l = []
    · subst hnil; simp [makeChunks, BATCH_SIZE] at hc
    · have hn : 1 ≤ l.length := List.length_pos.mpr hnil
      rw [makeChunks_cons l hnil] at hc
      by_cases hsmall : l.drop BATCH_SIZE = []
      · rw [hsmall] at hc
        simp only [show makeChunks [] = [] from rfl, List.dropLast_single] at hc
        cases hc
      · have hne2 : makeChunks (l.drop BATCH_SIZE) ≠ [] := by
          rw [makeChunks_cons _ hsmall]
          exact List.cons_ne_nil _ _
        rw [List.dropLast_cons_of_ne_nil hne2] at hc
        rcases List.mem_cons.mp hc with rfl | hc2
        · have hlen : BATCH_SIZE < l.length := by
            by_contra hle
            exact hsmall (List.drop_eq_nil_iff.mpr (by omega))
          simp [List.length_take]
          omega
        · exact ih (l.drop BATCH_SIZE)
            (by rw [List.length_drop]; simp [BATCH_SIZE]; omega) c hc2

theorem runBatches_spec (lookup : String → Option TokenHolder) :
    ∀ cs : List (List String),
      (runBatches lookup cs).2 = cs.length - 1
      ∧ (runBatches lookup cs).1 = (cs.map (processBatch lookup)).flatten := by
  intro cs
  induction cs with
  | nil => exact ⟨rfl, rfl⟩
  | cons c rest ih =>
    cases rest with
    | nil => simp [runBatches]
    | cons c2 rest2 =>
      refine ⟨?_, ?_⟩
      · simp [runBatches, ih.1]
      · simp [runBatches, ih.2]

/-- Claim C3: `fetchAllBalances` partitions the candidate list into
consecutive batches: the batches concatenate back to the input, every
batch except the last has exactly `BATCH_SIZE` elements, none exceeds
`BATCH_SIZE`, and the inter-batch delay happens exactly
numberOfBatches - 1 times; in particular 25 addresses give batches of
sizes 10, 10, 5 with exactly 2 delays. -/
theorem fetchAllBalances_batching (lookup : String → Option TokenHolder)
    (addresses : List String) :
    ((makeChunks addresses).flatten = addresses)
    ∧ (∀ c ∈ (makeChunks addresses).dropLast, c.length = BATCH_SIZE)
    ∧ (∀ c ∈ makeChunks addresses, c.length ≤ BATCH_SIZE)
    ∧ ((fetchAllBalances lookup addresses).2 = (makeChunks addresses).length - 1)
    ∧ (addresses.length = 25 →
        (makeChunks addresses).map List.length = [10, 10, 5]
          ∧ (fetchAllBalances lookup addresses).2 = 2) := by
  refine ⟨makeChunks_flatten_aux addresses.length addresses le_rfl,
    makeChunks_dropLast_aux addresses.length addresses le_rfl,
    makeChunks_le_aux addresses.length addresses le_rfl,
    (runBatches_spec lookup (makeChunks addresses)).1, ?_⟩
  intro h25
  have hmap : (makeChunks addresses).map List.length
      = (List.range ((addresses.length + BATCH_SIZE - 1) / BATCH_SIZE)).map
          (fun i => min BATCH_SIZE (addresses.length - i * BATCH_SIZE)) := by
    simp [makeChunks, List.map_map, Function.comp_def, List.length_take,
      List.length_drop]
  constructor
  · rw [hmap, h25]
    simp only [BATCH_SIZE]
    decide
  · show (runBatches lookup (makeChunks addresses)).2 = 2
    rw [(runBatches_spec lookup (makeChunks addresses)).1]
    have hlen : (makeChunks addresses).length
        = (addresses.length + BATCH_SIZE - 1) / BATCH_SIZE := by
      simp [makeChunks]
    rw [hlen, h25]
    norm_num [BATCH_SIZE]

/-- Claim C3 witness: a concrete 25-address list yields batch sizes
10, 10, 5 and exactly two inter-batch delays. -/
theorem fetchAllBalances_batching_app :
    (makeChunks ((List.range 25).map (fun i => toString i))).map List.length
        = [10, 10, 5]
    ∧ (fetchAllBalances (fun _ => none)
        ((List.range 25).map (fun i => toString i))).2 = 2 :=
  (fetchAllBalances_batching (fun _ => none)
    ((List.range 25).map (fun i => toString i))).2.2.2.2 (by simp)

/-- Claim C8 (amended) witness: at a concrete record list the
unique-address set membership is exact-string membership among the
record's sender and receiver, and every ledger key is in the set. -/
theorem addresses_ingested_verbatim_app :
    ("0xAB" ∈ (runLedger [⟨"0xAB", "0xcd", 3⟩]).addrs
      ↔ ∃ tx ∈ [(⟨"0xAB", "0xcd", 3⟩ : TokenTransaction)],
          "0xAB" = tx.fromAddr ∨ "0xAB" = tx.toAddr)
    ∧ (∀ e ∈ (runLedger [⟨"0xAB", "0xcd", 3⟩]).bals,
        e.1 ∈ (runLedger [⟨"0xAB", "0xcd", 3⟩]).addrs) :=
  addresses_ingested_verbatim [⟨"0xAB", "0xcd", 3⟩] "0xAB"

end ThetaSnapshot
